import Mathlib

/-!
Verification of the S7-200 Smart V-area binary viewer (src/main.go).

The development shallowly embeds the core of the program:
  * the byte/bit codec (`convertBytesTo16BitInts`, the MSB-first bit
    expansion used by the polling loop),
  * the session manager (`connectPLC`, `disconnectPLC`, `readVArea`)
    with its non-reentrant mutex modelled explicitly,
  * the single-shot read orchestration (`readOnce`) with its clamping,
  * the poller state machine (`startMonitoring`, `stopMonitoring`,
    loop exit) and the per-tick loop body.

Machine bytes are modelled as natural numbers; every function that the Go
code defines is translated directly from the source text with the same
control flow.
-/

namespace S7Viewer

/-! ## Byte/Bit Codec -/

/-- Function `convertBytesTo16BitInts` (src/main.go lines 124-138): walks the byte
slice two bytes at a time; a full pair yields `bytes[i]<<8 | bytes[i+1]`
(big-endian 16-bit value) and a trailing unpaired byte yields itself. -/
def convertBytesTo16BitInts : List Nat → List Nat
  | [] => []
  | [b] => [b]
  | b1 :: b2 :: rest => ((b1 <<< 8) ||| b2) :: convertBytesTo16BitInts rest

/-- One byte expanded to 8 booleans, most-significant bit first: entry `j`
is `(b >> (7-j)) & 1 == 1`, exactly the inner loop of the goroutine body
in `startMonitoring` (src/main.go lines 180-185). -/
def byteToBits (b : Nat) : List Bool :=
  (List.range 8).map fun j => (b >>> (7 - j)) &&& 1 == 1

/-- The bit expansion of a byte sequence: byte `i` fills positions
`i*8 .. i*8+7` MSB-first, as the double loop in `startMonitoring` does
(src/main.go lines 177-185). -/
def toBits (data : List Nat) : List Bool :=
  data.flatMap byteToBits

/-- Modelled from the spec: fold 8 MSB-first booleans back into a byte.
This reconstruction appears nowhere in the source; the spec's round-trip
property (§8) defines it as the MSB-first regrouping of the bit stream. -/
def bitsToByte (bits : List Bool) : Nat :=
  bits.foldl (fun acc bit => acc * 2 + (if bit then 1 else 0)) 0

/-- Modelled from the spec: regroup a boolean sequence 8 at a time,
MSB-first, into bytes; a leftover group of fewer than 8 booleans never
occurs on codec output and is dropped. -/
def fromBits : List Bool → List Nat
  | b0 :: b1 :: b2 :: b3 :: b4 :: b5 :: b6 :: b7 :: rest =>
      bitsToByte [b0, b1, b2, b3, b4, b5, b6, b7] :: fromBits rest
  | _ => []

/-! ## Session Manager

The transport (gos7 client) is a black box with two read capabilities.
`AGReadDB`/`AGReadMB` fill a caller-supplied buffer; here an oracle returns
the bytes the transport would deliver for a given request, and `writeInto`
reproduces Go's `copy` into the `make([]byte, size)` buffer: `min` lengths
are copied, the buffer keeps its length.  A failed call writes nothing. -/

/-- The black-box transport capability owned by a connected session:
`agReadDB dbNumber start size` and `agReadMB start size` each either fail
with a message or deliver bytes. -/
structure Transport where
  agReadDB : Nat → Int → Nat → Except String (List Nat)
  agReadMB : Int → Nat → Except String (List Nat)

/-- Go's `copy(buffer, data)`: the first `min (data.length) (buffer.length)`
entries come from `data`, the rest of `buffer` is untouched. -/
def writeInto (buffer data : List Nat) : List Nat :=
  data.take buffer.length ++ buffer.drop (min data.length buffer.length)

/-- Errors surfaced by `readVArea` (src/main.go lines 85 and 94): the
not-connected error, and the combined error carrying both the data-block
failure cause and the flat-memory failure cause. -/
inductive ReadErr where
  | notConnected
  | bothFailed (dbErr mbErr : String)
deriving DecidableEq, Repr

/-- A transport call, recorded so that theorems can speak about which
transport operations an invocation performed. -/
inductive TCall where
  | db (dbNumber : Nat) (start : Int) (size : Nat)
  | mb (start : Int) (size : Nat)
deriving DecidableEq, Repr

/-- Method `readVArea` (src/main.go lines 79-98): snapshot `p.client` under the
mutex; fail immediately when it is nil; otherwise allocate a buffer of
`size` bytes, try the data-block read on DB 1, and on failure fall back to
the flat-memory read at the same offset/count; only when both fail return
the combined error.  The second component lists the transport calls made,
in order. -/
def readVArea (client : Option Transport) (startByte : Int) (size : Nat) :
    Except ReadErr (List Nat) × List TCall :=
  match client with
  | none => (.error .notConnected, [])
  | some t =>
    let buffer := List.replicate size 0
    match t.agReadDB 1 startByte size with
    | .ok data => (.ok (writeInto buffer data), [.db 1 startByte size])
    | .error err =>
      match t.agReadMB startByte size with
      | .ok data2 =>
          (.ok (writeInto buffer data2), [.db 1 startByte size, .mb startByte size])
      | .error err2 =>
          (.error (.bothFailed err err2), [.db 1 startByte size, .mb startByte size])

/-- Method `readOnce` (src/main.go lines 101-121): coerce the requested length to
at least 1, cap it at 80 bytes (the 20x32-bit display capacity), then
delegate to `readVArea`. -/
def readOnce (client : Option Transport) (startAddress : Int) (length : Int) :
    Except ReadErr (List Nat) × List TCall :=
  let bytesToRead := if length ≤ 0 then 1 else length
  let bytesToRead := if bytesToRead > 80 then 80 else bytesToRead
  readVArea client startAddress bytesToRead.toNat

/-! ## Connection lifecycle

`PLCBinaryViewer.mu` is a Go `sync.Mutex`, which is not reentrant: a
goroutine that holds it and locks it again blocks forever.  The mutex is
modelled by a `muHeld` flag for the single control flow executing the
call; an operation returns `none` when it blocks forever (deadlock).
Handles are numbered so distinct connections are distinguishable, and
`connectOk` stands for the outcome of `handler.Connect()`. -/

/-- The connection-related fields of `PLCBinaryViewer` (src/main.go lines
26-32): the gos7 client and TCP handler (both nil when disconnected), and
the mutex.  `nextId` numbers freshly created handles. -/
structure SessionState where
  client : Option Nat
  handler : Option Nat
  muHeld : Bool
  nextId : Nat
deriving DecidableEq, Repr

/-- Go's `mu.Lock()` for the single flow executing the call: blocks forever
(`none`) if the flow already holds the mutex. -/
def muLock (s : SessionState) : Option SessionState :=
  if s.muHeld then none else some { s with muHeld := true }

/-- Go's `mu.Unlock()`. -/
def muUnlock (s : SessionState) : SessionState :=
  { s with muHeld := false }

/-- Method `disconnectPLC` (src/main.go lines 65-77): lock, and if a client
exists close the handler and clear both fields; unlock on return. -/
def disconnectPLC (s : SessionState) : Option SessionState :=
  (muLock s).map fun s1 =>
    muUnlock (if s1.client.isSome then { s1 with client := none, handler := none } else s1)

/-- Method `connectPLC` (src/main.go lines 40-63): lock `p.mu` (held until the
deferred unlock at return), and if a client already exists call
`disconnectPLC` — which locks `p.mu` again — then sleep 100 ms; next
create a handler and attempt `handler.Connect()` (outcome `connectOk`);
on failure return the error, on success store the new handler/client.
`none` means the call never returns (deadlock). -/
def connectPLC (s : SessionState) (connectOk : Bool) : Option SessionState :=
  (muLock s).bind fun s1 =>
    (if s1.client.isSome then disconnectPLC s1 else some s1).bind fun s2 =>
      if connectOk then
        some (muUnlock { s2 with handler := some s2.nextId, client := some s2.nextId,
                                 nextId := s2.nextId + 1 })
      else
        some (muUnlock s2)

/-! ## Poller state machine

`running`/`stopChan` transitions of `startMonitoring` (src/main.go lines
140-149), `stopMonitoring` (lines 195-202) and the goroutine's exit on a
closed channel (line 157).  Channels are numbered by generation: `make`
hands out `nextGen`, `close` records the generation in `fired`, and a
launched goroutine is an element of `loops` until it observes its closed
channel and returns.  Each function body runs with the mutex held, so a
transition is one atomic step. -/

/-- The polling-related fields of `PLCBinaryViewer` plus the bookkeeping
that makes channels and goroutines observable: `stopChanGen` is the
channel currently stored in `p.stopChan`, `loops` the launched goroutines
(by the channel generation each one selects on), `fired` the closed
channels. -/
structure PollState where
  running : Bool
  stopChanGen : Nat
  nextGen : Nat
  loops : List Nat
  fired : List Nat
deriving DecidableEq, Repr

/-- Constructor `NewPLCBinaryViewer` (src/main.go lines 34-38): not running, with an
initial channel (generation 0) that no goroutine selects on. -/
def initPollState : PollState :=
  { running := false, stopChanGen := 0, nextGen := 1, loops := [], fired := [] }

/-- Method `startMonitoring`, control part (src/main.go lines 140-149): under the
mutex, return if already running; otherwise set `running`, make a fresh
`stopChan` and launch the goroutine selecting on it. -/
def startMonitoring (s : PollState) : PollState :=
  if s.running then s
  else { running := true, stopChanGen := s.nextGen, nextGen := s.nextGen + 1,
         loops := s.nextGen :: s.loops, fired := s.fired }

/-- Method `stopMonitoring` (src/main.go lines 195-202): under the mutex, if
running close the current `stopChan` and clear the flag; otherwise no-op. -/
def stopMonitoring (s : PollState) : PollState :=
  if s.running then { s with fired := s.stopChanGen :: s.fired, running := false }
  else s

/-- A launched goroutine returns when its `select` observes its closed
channel (src/main.go lines 156-158): possible exactly when the channel it
holds has been closed. -/
def loopExit (s : PollState) (g : Nat) : PollState :=
  if g ∈ s.fired ∧ g ∈ s.loops then { s with loops := s.loops.erase g } else s

/-- States of the viewer reachable from `NewPLCBinaryViewer` through the
poller's operations and goroutine exits, in any interleaving. -/
inductive Reachable : PollState → Prop where
  | init : Reachable initPollState
  | start {s} : Reachable s → Reachable (startMonitoring s)
  | stop {s} : Reachable s → Reachable (stopMonitoring s)
  | exitLoop {s} (g : Nat) : Reachable s → Reachable (loopExit s g)

/-- The goroutines still running whose cancellation has not been signalled:
launched loops whose channel is not closed. -/
def activeLoops (s : PollState) : List Nat :=
  s.loops.filter fun g => decide (g ∉ s.fired)

/-- The inductive invariant of the poller state machine: generations are
allocated in order, channels and goroutines are never duplicated, and the
not-yet-cancelled goroutines are exactly the one selecting on the current
channel when `running`, none otherwise. -/
structure Inv (s : PollState) : Prop where
  loops_lt : ∀ g ∈ s.loops, g < s.nextGen
  fired_lt : ∀ g ∈ s.fired, g < s.nextGen
  nodupLoops : s.loops.Nodup
  nodupFired : s.fired.Nodup
  active : activeLoops s = if s.running then [s.stopChanGen] else []

/-! ## Poll loop body

The goroutine launched by `startMonitoring` repeats a `select`: the closed
stop channel makes it return, a ticker tick makes it read a clamped window
and push the decoded bits to the sink.  One iteration is modelled as a
function of the event the `select` delivers. -/

/-- What the goroutine's `select` delivers on one iteration: the stop
channel became ready (closed), or the 1 s ticker fired. -/
inductive LoopEvent where
  | stopSignal
  | tick
deriving DecidableEq, Repr

/-- The outcome of one iteration: the goroutine returned, or it continues
to the next iteration having invoked the sink with the given bits (`none`
when the sink was not invoked). -/
inductive StepResult where
  | exited
  | continued (sinkCall : Option (List Bool))
deriving DecidableEq, Repr

/-- The tick's clamp of the byte count to `[1, 4]` (src/main.go lines
160-169): coerce to at least 1, cap at the polling maximum of 4 bytes. -/
def pollBytesToRead (length : Int) : Nat :=
  (if (if length ≤ 0 then 1 else length) > 4 then 4
   else if length ≤ 0 then 1 else length).toNat

/-- The array `make([]bool, totalBits)` filled by the double loop over `data`
(src/main.go lines 177-185): positions `0 .. 8*len(data)-1` get the
MSB-first bits, positions beyond stay at the zero value `false`. -/
def fillBits (totalBits : Nat) (data : List Nat) : List Bool :=
  toBits data ++ List.replicate (totalBits - 8 * data.length) false

/-- One ticker tick of the goroutine body (src/main.go lines 159-189):
read the clamped window through `readVArea`; on failure log the error and
continue without touching the sink; on success convert the bytes to the
MSB-first bit array and invoke the sink with it. -/
def pollTick (client : Option Transport) (startAddr : Int) (length : Int) :
    StepResult :=
  match (readVArea client startAddr (pollBytesToRead length)).1 with
  | .error _ => .continued none
  | .ok data => .continued (some (fillBits (pollBytesToRead length * 8) data))

/-- One iteration of the goroutine's `select` (src/main.go lines 155-191). -/
def loopStep (client : Option Transport) (startAddr : Int) (length : Int) :
    LoopEvent → StepResult
  | .stopSignal => .exited
  | .tick => pollTick client startAddr length

/-! ## Concrete transports for evaluating the read paths -/

/-- A transport whose data-block read succeeds. -/
def tOkDB : Transport :=
  { agReadDB := fun _ _ _ => .ok [7, 8], agReadMB := fun _ _ => .error "mb unreachable" }

/-- A transport whose data-block read fails but whose flat-memory read
succeeds. -/
def tFallback : Transport :=
  { agReadDB := fun _ _ _ => .error "db down", agReadMB := fun _ _ => .ok [9] }

/-- A transport on which both reads fail. -/
def tBothFail : Transport :=
  { agReadDB := fun _ _ _ => .error "db down", agReadMB := fun _ _ => .error "mb down" }

/-! ## Lemmas -/

theorem convertBytesTo16BitInts_length (B : List Nat) :
    (convertBytesTo16BitInts B).length = (B.length + 1) / 2 := by
  induction B using convertBytesTo16BitInts.induct with
  | case1 => rfl
  | case2 b => simp [convertBytesTo16BitInts]
  | case3 b1 b2 rest ih =>
      simp only [convertBytesTo16BitInts, List.length_cons, ih]
      omega

theorem byteToBits_length (b : Nat) : (byteToBits b).length = 8 := by
  simp [byteToBits]

theorem toBits_length (B : List Nat) : (toBits B).length = 8 * B.length := by
  induction B with
  | nil => rfl
  | cons b rest ih =>
      simp only [toBits, List.flatMap_cons, List.length_append, byteToBits_length,
        List.length_cons] at *
      omega

set_option maxRecDepth 4096 in
theorem bitsToByte_byteToBits : ∀ b < 256, bitsToByte (byteToBits b) = b := by
  decide

theorem fromBits_toBits (B : List Nat) (hB : ∀ b ∈ B, b < 256) :
    fromBits (toBits B) = B := by
  induction B with
  | nil => rfl
  | cons b rest ih =>
      have hbits : toBits (b :: rest) =
          (b >>> 7 &&& 1 == 1) :: (b >>> 6 &&& 1 == 1) :: (b >>> 5 &&& 1 == 1) ::
          (b >>> 4 &&& 1 == 1) :: (b >>> 3 &&& 1 == 1) :: (b >>> 2 &&& 1 == 1) ::
          (b >>> 1 &&& 1 == 1) :: (b >>> 0 &&& 1 == 1) :: toBits rest := by
        simp [toBits, byteToBits, List.range_succ]
      rw [hbits, fromBits]
      have hb : bitsToByte (byteToBits b) = b := bitsToByte_byteToBits b (hB b (by simp))

      have hbyte : byteToBits b =
          [b >>> 7 &&& 1 == 1, b >>> 6 &&& 1 == 1, b >>> 5 &&& 1 == 1,
           b >>> 4 &&& 1 == 1, b >>> 3 &&& 1 == 1, b >>> 2 &&& 1 == 1,
           b >>> 1 &&& 1 == 1, b >>> 0 &&& 1 == 1] := by
        simp [byteToBits, List.range_succ]
      rw [hbyte] at hb
      rw [hb, ih (fun x hx => hB x (by simp [hx]))]

theorem writeInto_length (buffer data : List Nat) :
    (writeInto buffer data).length = buffer.length := by
  simp [writeInto]
  omega

/-- Erasing an element that a filter rejects anyway does not change the
filtered list. -/
theorem filter_erase_of_not {p : Nat → Bool} {g : Nat} (hg : p g = false) :
    ∀ l : List Nat, (l.erase g).filter p = l.filter p := by
  intro l
  induction l with
  | nil => rfl
  | cons a l ih =>
      by_cases hag : a = g
      · subst hag
        simp [List.erase_cons, List.filter_cons, hg]
      · have hbeq : (a == g) = false := by simp [hag]
        by_cases hpa : p a = true
        · simp [List.erase_cons, hbeq, List.filter_cons, hpa, ih]
        · simp only [Bool.not_eq_true] at hpa
          simp [List.erase_cons, hbeq, List.filter_cons, hpa, ih]

theorem inv_init : Inv initPollState := by
  refine ⟨?_, ?_, ?_, ?_, ?_⟩ <;> simp [initPollState, activeLoops]

theorem inv_start {s : PollState} (h : Inv s) : Inv (startMonitoring s) := by
  unfold startMonitoring
  by_cases hr : s.running = true
  · rw [if_pos hr]
    exact h
  · have hfired : s.nextGen ∉ s.fired := fun hmem => absurd (h.fired_lt _ hmem) (by omega)
    have hloops : s.nextGen ∉ s.loops := fun hmem => absurd (h.loops_lt _ hmem) (by omega)
    rw [if_neg hr]
    refine ⟨?_, ?_, ?_, h.nodupFired, ?_⟩
    · intro g hg
      rcases List.mem_cons.mp hg with rfl | hg
      · exact Nat.lt_succ_self _
      · exact Nat.lt_succ_of_lt (h.loops_lt g hg)
    · intro g hg
      exact Nat.lt_succ_of_lt (h.fired_lt g hg)
    · exact List.nodup_cons.mpr ⟨hloops, h.nodupLoops⟩
    · have hra : activeLoops s = [] := by
        rw [h.active]
        simp [hr]
      unfold activeLoops at hra
      show List.filter _ (s.nextGen :: s.loops) = if (true : Bool) = true then [s.nextGen] else []
      rw [if_pos rfl, List.filter_cons_of_pos (by simpa using hfired), hra]

theorem inv_stop {s : PollState} (h : Inv s) : Inv (stopMonitoring s) := by
  unfold stopMonitoring
  by_cases hr : s.running = true
  · have hc_mem : s.stopChanGen ∈ activeLoops s := by
      rw [h.active]
      simp [hr]
    have hc_loops : s.stopChanGen ∈ s.loops := List.mem_of_mem_filter hc_mem
    have hc_fired : s.stopChanGen ∉ s.fired := by
      have := List.of_mem_filter hc_mem
      simpa using this
    rw [if_pos hr]
    refine ⟨h.loops_lt, ?_, h.nodupLoops, ?_, ?_⟩
    · intro g hg
      rcases List.mem_cons.mp hg with rfl | hg
      · exact h.loops_lt _ hc_loops
      · exact h.fired_lt g hg
    · exact List.nodup_cons.mpr ⟨hc_fired, h.nodupFired⟩
    · unfold activeLoops
      have hpred : (fun g => decide (g ∉ s.stopChanGen :: s.fired)) =
          fun g => decide (g ≠ s.stopChanGen) && decide (g ∉ s.fired) := by
        funext g
        by_cases h1 : g = s.stopChanGen <;> by_cases h2 : g ∈ s.fired <;> simp [h1, h2]
      simp only [hpred]
      rw [← List.filter_filter]
      have : s.loops.filter (fun g => decide (g ∉ s.fired)) = [s.stopChanGen] := by
        have := h.active
        unfold activeLoops at this
        simpa [hr] using this
      rw [this]
      simp
  · rw [if_neg hr]
    exact h

theorem inv_exitLoop {s : PollState} (g : Nat) (h : Inv s) : Inv (loopExit s g) := by
  unfold loopExit
  by_cases hg : g ∈ s.fired ∧ g ∈ s.loops
  · rw [if_pos hg]
    refine ⟨?_, h.fired_lt, h.nodupLoops.erase _, h.nodupFired, ?_⟩
    · intro x hx
      exact h.loops_lt x (List.mem_of_mem_erase hx)
    · have hpg : (decide (g ∉ s.fired)) = false := by simp [hg.1]
      unfold activeLoops
      rw [filter_erase_of_not hpg]
      exact h.active
  · rw [if_neg hg]
    exact h

/-- Every state reachable from `NewPLCBinaryViewer` satisfies the
invariant. -/
theorem reachable_inv {s : PollState} (h : Reachable s) : Inv s := by
  induction h with
  | init => exact inv_init
  | start _ ih => exact inv_start ih
  | stop _ ih => exact inv_stop ih
  | exitLoop g _ ih => exact inv_exitLoop g ih

theorem startMonitoring_running (s : PollState) :
    (startMonitoring s).running = true := by
  unfold startMonitoring
  by_cases hr : s.running = true <;> simp [hr]

/-! ## Helper lemmas -/

theorem readOnce_eq (client : Option Transport) (x L : Int) :
    readOnce client x L = readVArea client x (max 1 (min 80 L)).toNat := by
  simp only [readOnce]
  have h : (if (if L ≤ 0 then 1 else L) > 80 then 80 else if L ≤ 0 then 1 else L) =
      max 1 (min 80 L) := by
    split_ifs <;> omega
  rw [h]

theorem readVArea_ok_length (client : Option Transport) (startByte : Int)
    (size : Nat) (bytes : List Nat) (calls : List TCall)
    (h : readVArea client startByte size = (.ok bytes, calls)) :
    bytes.length = size := by
  cases client with
  | none => simp [readVArea] at h
  | some t =>
      simp only [readVArea] at h
      cases hdb : t.agReadDB 1 startByte size with
      | ok d =>
          rw [hdb] at h
          have hb : writeInto (List.replicate size 0) d = bytes := by
            have := congrArg Prod.fst h
            simpa using this
          rw [← hb, writeInto_length, List.length_replicate]
      | error e =>
          rw [hdb] at h
          cases hmb : t.agReadMB startByte size with
          | ok d2 =>
              rw [hmb] at h
              have hb : writeInto (List.replicate size 0) d2 = bytes := by
                have := congrArg Prod.fst h
                simpa using this
              rw [← hb, writeInto_length, List.length_replicate]
          | error e2 =>
              rw [hmb] at h
              have := congrArg Prod.fst h
              simp at this

theorem stopMonitoring_not_running (s : PollState) :
    (stopMonitoring s).running = false := by
  unfold stopMonitoring
  by_cases hr : s.running = true
  · rw [if_pos hr]
  · rw [if_neg hr]
    simpa using hr

theorem convert_get_pair : ∀ (B : List Nat) (i : Nat), 2 * i + 1 < B.length →
    (convertBytesTo16BitInts B)[i]? =
      some ((B.getD (2 * i) 0 <<< 8) ||| B.getD (2 * i + 1) 0) := by
  intro B
  induction B using convertBytesTo16BitInts.induct with
  | case1 =>
      intro i h
      simp at h
  | case2 b =>
      intro i h
      simp only [List.length_cons, List.length_nil] at h
      omega
  | case3 b1 b2 rest ih =>
      intro i h
      cases i with
      | zero => simp [convertBytesTo16BitInts]
      | succ j =>
          have h' : 2 * j + 1 < rest.length := by
            simp only [List.length_cons] at h
            omega
          simp only [convertBytesTo16BitInts]
          rw [List.getElem?_cons_succ, ih j h']
          have e1 : 2 * (j + 1) = 2 * j + 1 + 1 := by omega
          rw [e1]
          simp [List.getD_cons_succ]

theorem convert_get_last : ∀ (B : List Nat) (i : Nat), B.length = 2 * i + 1 →
    (convertBytesTo16BitInts B)[i]? = some (B.getD (2 * i) 0) := by
  intro B
  induction B using convertBytesTo16BitInts.induct with
  | case1 =>
      intro i h
      simp at h
  | case2 b =>
      intro i h
      simp only [List.length_cons, List.length_nil] at h
      have hi : i = 0 := by omega
      subst hi
      simp [convertBytesTo16BitInts]
  | case3 b1 b2 rest ih =>
      intro i h
      simp only [List.length_cons] at h
      cases i with
      | zero => omega
      | succ j =>
          have h' : rest.length = 2 * j + 1 := by omega
          simp only [convertBytesTo16BitInts]
          rw [List.getElem?_cons_succ, ih j h']
          have e1 : 2 * (j + 1) = 2 * j + 1 + 1 := by omega
          rw [e1]
          simp [List.getD_cons_succ]

theorem toBits_get : ∀ (B : List Nat) (i j : Nat), i < B.length → j < 8 →
    (toBits B)[8 * i + j]? = some ((B.getD i 0 >>> (7 - j)) &&& 1 == 1) := by
  intro B
  induction B with
  | nil =>
      intro i j hi hj
      simp at hi
  | cons b rest ih =>
      intro i j hi hj
      have hsplit : toBits (b :: rest) = byteToBits b ++ toBits rest := rfl
      cases i with
      | zero =>
          rw [hsplit]
          have hidx : 8 * 0 + j = j := by omega
          rw [hidx, List.getElem?_append_left (by simpa [byteToBits_length] using hj)]
          simp [byteToBits, List.getElem?_range, hj]
      | succ k =>
          rw [hsplit]
          have hlen : (byteToBits b).length = 8 := byteToBits_length b
          have hidx : 8 * (k + 1) + j = (byteToBits b).length + (8 * k + j) := by
            rw [hlen]
            omega
          rw [hidx, List.getElem?_append_right (by omega)]
          have hsub : (byteToBits b).length + (8 * k + j) - (byteToBits b).length =
              8 * k + j := by omega
          rw [hsub, ih k j (by simpa using hi) hj, List.getD_cons_succ]

/-! ## Claims -/

/-- Claim C1 — refuted by the code: when a connection already exists (and
the mutex is free, as for any external call), `connectPLC` does not tear
the old handle down and reconnect; it never returns at all.  Holding
`p.mu` it calls `disconnectPLC`, which locks the non-reentrant `p.mu`
again, so the call self-deadlocks (`none`) before the teardown, the 100 ms
grace delay and the re-establishment are ever reached. -/
theorem connectPLC_deadlocks_when_connected (s : SessionState) (k : Bool)
    (hmu : s.muHeld = false) (hc : s.client.isSome = true) :
    connectPLC s k = none := by
  simp [connectPLC, muLock, disconnectPLC, hmu, hc]

/-- The deadlock evaluated at a concrete connected session. -/
theorem connectPLC_deadlocks_when_connected_witness :
    connectPLC { client := some 0, handler := some 0, muHeld := false, nextId := 1 } true =
      none :=
  connectPLC_deadlocks_when_connected _ true rfl rfl

/-- Claim C2: `readVArea` with no transport handle returns the
not-connected error immediately and performs no transport call (neither
the data-block nor the flat-memory read), for every window. -/
theorem readVArea_not_connected (startByte : Int) (size : Nat) :
    readVArea none startByte size = (.error .notConnected, []) := rfl

/-- Claim C3: on a connected session, a successful data-block read is
returned as-is and the flat-memory read is never invoked; when the
data-block read fails but the flat-memory read at the same offset/count
succeeds, its bytes are returned with no error surfaced; only when both
fail does the call fail, and the error then carries both causes. -/
theorem readVArea_fallback (t : Transport) (startByte : Int) (size : Nat) :
    (∀ data, t.agReadDB 1 startByte size = .ok data →
        readVArea (some t) startByte size =
          (.ok (writeInto (List.replicate size 0) data), [.db 1 startByte size])) ∧
    (∀ err data2, t.agReadDB 1 startByte size = .error err →
        t.agReadMB startByte size = .ok data2 →
        readVArea (some t) startByte size =
          (.ok (writeInto (List.replicate size 0) data2),
           [.db 1 startByte size, .mb startByte size])) ∧
    (∀ err err2, t.agReadDB 1 startByte size = .error err →
        t.agReadMB startByte size = .error err2 →
        readVArea (some t) startByte size =
          (.error (.bothFailed err err2), [.db 1 startByte size, .mb startByte size])) := by
  refine ⟨?_, ?_, ?_⟩
  · intro data hdb
    simp [readVArea, hdb]
  · intro err data2 hdb hmb
    simp [readVArea, hdb, hmb]
  · intro err err2 hdb hmb
    simp [readVArea, hdb, hmb]

/-- The three read paths evaluated at concrete transports. -/
theorem readVArea_fallback_witness :
    readVArea (some tOkDB) 0 2 =
      (.ok (writeInto (List.replicate 2 0) [7, 8]), [.db 1 0 2]) ∧
    readVArea (some tFallback) 0 2 =
      (.ok (writeInto (List.replicate 2 0) [9]), [.db 1 0 2, .mb 0 2]) ∧
    readVArea (some tBothFail) 0 2 =
      (.error (.bothFailed "db down" "mb down"), [.db 1 0 2, .mb 0 2]) :=
  ⟨(readVArea_fallback tOkDB 0 2).1 [7, 8] rfl,
   (readVArea_fallback tFallback 0 2).2.1 "db down" [9] rfl rfl,
   (readVArea_fallback tBothFail 0 2).2.2 "db down" "mb down" rfl rfl⟩

/-- Claim C4: `convertBytesTo16BitInts` groups bytes in big-endian pairs
(`bytes[2i]<<8 | bytes[2i+1]`), an odd final unpaired byte stands alone
with high byte zero, the result has length `ceil(len/2)`, and the two
quoted examples hold. -/
theorem convertBytesTo16BitInts_spec (B : List Nat) :
    (convertBytesTo16BitInts B).length = (B.length + 1) / 2 ∧
    (∀ i, 2 * i + 1 < B.length →
        (convertBytesTo16BitInts B)[i]? =
          some ((B.getD (2 * i) 0 <<< 8) ||| B.getD (2 * i + 1) 0)) ∧
    (∀ i, B.length = 2 * i + 1 →
        (convertBytesTo16BitInts B)[i]? = some (B.getD (2 * i) 0)) ∧
    convertBytesTo16BitInts [1, 2, 3] = [258, 3] ∧
    convertBytesTo16BitInts [] = [] :=
  ⟨convertBytesTo16BitInts_length B, convert_get_pair B, convert_get_last B,
   by decide, rfl⟩

/-- The word decomposition evaluated on `[1, 2, 3]`. -/
theorem convertBytesTo16BitInts_spec_witness :
    (convertBytesTo16BitInts [1, 2, 3])[0]? =
      some ((List.getD [1, 2, 3] (2 * 0) 0 <<< 8) ||| List.getD [1, 2, 3] (2 * 0 + 1) 0) ∧
    (convertBytesTo16BitInts [1, 2, 3])[1]? = some (List.getD [1, 2, 3] (2 * 1) 0) :=
  ⟨(convertBytesTo16BitInts_spec [1, 2, 3]).2.1 0 (by decide),
   (convertBytesTo16BitInts_spec [1, 2, 3]).2.2.1 1 (by decide)⟩

/-- Claim C5: the bit expansion emits 8 booleans per byte MSB-first
(position `8*i+j` holds bit `7-j` of byte `i`), has length `8*len(B)`, and
regrouping the booleans 8 at a time MSB-first reconstructs `B` exactly. -/
theorem toBits_roundtrip (B : List Nat) (hB : ∀ b ∈ B, b < 256) :
    (∀ i j, i < B.length → j < 8 →
        (toBits B)[8 * i + j]? = some ((B.getD i 0 >>> (7 - j)) &&& 1 == 1)) ∧
    (toBits B).length = 8 * B.length ∧
    fromBits (toBits B) = B :=
  ⟨toBits_get B, toBits_length B, fromBits_toBits B hB⟩

/-- The round trip evaluated on the byte `0b10110000`. -/
theorem toBits_roundtrip_witness :
    (toBits [176])[8 * 0 + 0]? = some ((List.getD [176] 0 0 >>> (7 - 0)) &&& 1 == 1) ∧
    (toBits [176]).length = 8 * ([176] : List Nat).length ∧
    fromBits (toBits [176]) = [176] :=
  ⟨(toBits_roundtrip [176] (by decide)).1 0 0 (by decide) (by decide),
   (toBits_roundtrip [176] (by decide)).2.1,
   (toBits_roundtrip [176] (by decide)).2.2⟩

/-- Claim C6: `readOnce` clamps its length to `[1, 80]` before delegating
to `readVArea`; in particular length 0 behaves exactly as length 1 and
length 1000 exactly as length 80, for every session and transport. -/
theorem readOnce_clamps (client : Option Transport) (x : Int) :
    (∀ L : Int, readOnce client x L = readVArea client x (max 1 (min 80 L)).toNat) ∧
    readOnce client x 0 = readOnce client x 1 ∧
    readOnce client x 1000 = readOnce client x 80 := by
  refine ⟨readOnce_eq client x, ?_, ?_⟩
  · rw [readOnce_eq, readOnce_eq]
    norm_num
  · rw [readOnce_eq, readOnce_eq]
    norm_num

/-- Claim C7: calling `startMonitoring` while the running flag is set is a
no-op, `startMonitoring` is idempotent, two starts without an intervening
stop leave exactly one active loop, and every reachable state has at most
one active loop. -/
theorem startMonitoring_at_most_one_loop :
    (∀ s : PollState, s.running = true → startMonitoring s = s) ∧
    (∀ s : PollState, startMonitoring (startMonitoring s) = startMonitoring s) ∧
    (∀ s : PollState, Reachable s →
        (activeLoops (startMonitoring (startMonitoring s))).length = 1) ∧
    (∀ s : PollState, Reachable s → (activeLoops s).length ≤ 1) := by
  have h1 : ∀ s : PollState, s.running = true → startMonitoring s = s := by
    intro s h
    unfold startMonitoring
    rw [if_pos h]
  have hlen : ∀ s : PollState, Reachable s →
      (activeLoops s).length = if s.running then 1 else 0 := by
    intro s hs
    rw [(reachable_inv hs).active]
    by_cases h : s.running = true <;> simp [h]
  refine ⟨h1, ?_, ?_, ?_⟩
  · intro s
    exact h1 _ (startMonitoring_running s)
  · intro s hs
    rw [hlen _ (Reachable.start (Reachable.start hs)), startMonitoring_running]
    simp
  · intro s hs
    rw [hlen s hs]
    by_cases h : s.running = true <;> simp [h]

/-- The loop-count bound evaluated from the initial state. -/
theorem startMonitoring_at_most_one_loop_witness :
    (activeLoops (startMonitoring (startMonitoring initPollState))).length = 1 ∧
    (activeLoops initPollState).length ≤ 1 :=
  ⟨startMonitoring_at_most_one_loop.2.2.1 initPollState Reachable.init,
   startMonitoring_at_most_one_loop.2.2.2 initPollState Reachable.init⟩

/-- Claim C8: each start launches its loop on a brand-new channel (never
fired, used by no other loop); stop on a running poller closes the current
channel — not closed before, so exactly once — and clears the flag; a
second stop without an intervening start is a no-op; and a start right
after a stop selects on a channel distinct from every fired one, so the
new loop is unaffected by the previously fired signal. -/
theorem stopMonitoring_fresh_signal :
    (∀ s : PollState, Reachable s → s.running = false →
        (startMonitoring s).loops = (startMonitoring s).stopChanGen :: s.loops ∧
        (startMonitoring s).stopChanGen ∉ s.fired ∧
        (startMonitoring s).stopChanGen ∉ s.loops) ∧
    (∀ s : PollState, Reachable s → s.running = true →
        s.stopChanGen ∉ s.fired ∧
        (stopMonitoring s).fired = s.stopChanGen :: s.fired ∧
        (stopMonitoring s).running = false) ∧
    (∀ s : PollState, stopMonitoring (stopMonitoring s) = stopMonitoring s) ∧
    (∀ s : PollState, Reachable s →
        (startMonitoring (stopMonitoring s)).stopChanGen ∉ (stopMonitoring s).fired) := by
  refine ⟨?_, ?_, ?_, ?_⟩
  · intro s hs h
    have hI := reachable_inv hs
    have hne : ¬ s.running = true := by simp [h]
    unfold startMonitoring
    rw [if_neg hne]
    refine ⟨rfl, ?_, ?_⟩
    · intro hmem
      have hlt : s.nextGen < s.nextGen := hI.fired_lt _ hmem
      omega
    · intro hmem
      have hlt : s.nextGen < s.nextGen := hI.loops_lt _ hmem
      omega
  · intro s hs h
    have hI := reachable_inv hs
    have hc_mem : s.stopChanGen ∈ activeLoops s := by
      rw [hI.active]
      simp [h]
    have hcf : s.stopChanGen ∉ s.fired := by
      have := List.of_mem_filter hc_mem
      simpa using this
    refine ⟨hcf, ?_, stopMonitoring_not_running s⟩
    unfold stopMonitoring
    rw [if_pos h]
  · intro s
    have h2 : (stopMonitoring s).running = false := stopMonitoring_not_running s
    generalize hts : stopMonitoring s = t
    rw [hts] at h2
    unfold stopMonitoring
    rw [if_neg (by simp [h2])]
  · intro s hs
    have hI2 := reachable_inv (Reachable.stop hs)
    have h2 : (stopMonitoring s).running = false := stopMonitoring_not_running s
    unfold startMonitoring
    rw [if_neg (by simp [h2])]
    intro hmem
    have hlt : (stopMonitoring s).nextGen < (stopMonitoring s).nextGen :=
      hI2.fired_lt _ hmem
    omega

/-- The channel-freshness properties evaluated at concrete states. -/
theorem stopMonitoring_fresh_signal_witness :
    ((startMonitoring initPollState).loops =
        (startMonitoring initPollState).stopChanGen :: initPollState.loops ∧
      (startMonitoring initPollState).stopChanGen ∉ initPollState.fired ∧
      (startMonitoring initPollState).stopChanGen ∉ initPollState.loops) ∧
    ((startMonitoring initPollState).stopChanGen ∉ (startMonitoring initPollState).fired ∧
      (stopMonitoring (startMonitoring initPollState)).fired =
        (startMonitoring initPollState).stopChanGen :: (startMonitoring initPollState).fired ∧
      (stopMonitoring (startMonitoring initPollState)).running = false) ∧
    (startMonitoring (stopMonitoring (startMonitoring initPollState))).stopChanGen ∉
      (stopMonitoring (startMonitoring initPollState)).fired :=
  ⟨stopMonitoring_fresh_signal.1 initPollState Reachable.init rfl,
   stopMonitoring_fresh_signal.2.1 (startMonitoring initPollState)
     (Reachable.start Reachable.init) rfl,
   stopMonitoring_fresh_signal.2.2.2 (startMonitoring initPollState)
     (Reachable.start Reachable.init)⟩

/-- Claim C9: a read failure inside a poll tick is non-fatal — the
iteration continues without invoking the sink; a successful tick continues
too, handing the decoded bits to the sink; and an iteration exits if and
only if the event is the cancellation signal. -/
theorem loopStep_cancellation_only (client : Option Transport) (a L : Int) :
    (∀ e, (readVArea client a (pollBytesToRead L)).1 = .error e →
        loopStep client a L .tick = .continued none) ∧
    (∀ data, (readVArea client a (pollBytesToRead L)).1 = .ok data →
        loopStep client a L .tick =
          .continued (some (fillBits (pollBytesToRead L * 8) data))) ∧
    loopStep client a L .stopSignal = .exited ∧
    (∀ ev, loopStep client a L ev = .exited ↔ ev = .stopSignal) := by
  refine ⟨?_, ?_, rfl, ?_⟩
  · intro e he
    simp [loopStep, pollTick, he]
  · intro data hd
    simp [loopStep, pollTick, hd]
  · intro ev
    cases ev with
    | stopSignal => simp [loopStep]
    | tick =>
        simp only [loopStep]
        constructor
        · intro h
          exfalso
          unfold pollTick at h
          cases hr : (readVArea client a (pollBytesToRead L)).1 with
          | error e =>
              rw [hr] at h
              simp at h
          | ok d =>
              rw [hr] at h
              simp at h
        · intro h
          simp at h

/-- A failing tick (disconnected session) evaluated concretely: the loop
continues and the sink is untouched. -/
theorem loopStep_cancellation_only_witness :
    loopStep none 0 1 .tick = .continued none :=
  (loopStep_cancellation_only none 0 1).1 .notConnected rfl

/-- Claim C10: whenever `readOnce` succeeds it returns exactly as many
bytes as the clamp of the requested length into `[1, 80]`, because
`readVArea` returns the buffer it allocated with exactly that size. -/
theorem readOnce_success_length (client : Option Transport) (x L : Int)
    (bytes : List Nat) (calls : List TCall)
    (h : readOnce client x L = (.ok bytes, calls)) :
    bytes.length = (max 1 (min 80 L)).toNat := by
  rw [readOnce_eq] at h
  exact readVArea_ok_length _ _ _ _ _ h

/-- The success length evaluated at a concrete transport: a request of 3
bytes yields exactly 3 bytes. -/
theorem readOnce_success_length_witness :
    ([7, 8, 0] : List Nat).length = (max 1 (min 80 (3 : Int))).toNat :=
  readOnce_success_length (some tOkDB) 0 3 [7, 8, 0] [.db 1 0 3] rfl

end S7Viewer
